import Mathlib

/-!
Verification of the page-fetch-and-paginate pipeline of a web scraper.

The embedding models the four functions of the source module:
- fetch_page: bounded-retry fetcher with exponential backoff, iterating over
  range(retries); network attempt outcomes are an oracle Nat -> Option String,
  and the returned trace records the result, the number of attempts made, and
  the sleep durations inserted between attempts.
- scrape_elements: for each requested element type, the records (attribute
  assignments plus inner text) of all matching elements, in document order.
- save_results: dispatch on the output format string; models which files are
  written (and their content) and whether the unsupported-format error is
  logged.
- scrape_next_button: the pagination loop, with the fetcher and the HTML
  parser abstracted as function parameters; Python dictionaries are modelled
  as association lists with insert-or-update semantics, and a raised KeyError
  (from reading a missing href) is modelled as an Except.error outcome.
-/

namespace WebScraper

/-- An HTML element as the scraper sees it: its tag name, its attribute
assignments (unique keys, document source order), and its inner text
(as produced by get_text with strip). -/
structure Element where
  tag : String
  attrs : List (String × String)
  text : String
deriving DecidableEq

/-- One matched element's captured data: attribute name to string value,
in insertion order, as a Python dict (association list, unique keys). -/
abbrev Record := List (String × String)

/-- Mapping from element type to the list of records extracted for it;
also the shape of the aggregate result across pages. -/
abbrev PageResult := List (String × List Record)

/-- Python dict assignment d[k] = v on an association list: update the
binding in place when the key is present, append it otherwise. -/
def dictInsert : List (String × α) → String → α → List (String × α)
  | [], k, v => [(k, v)]
  | (k₁, v₁) :: rest, k, v =>
    if k₁ = k then (k, v) :: rest else (k₁, v₁) :: dictInsert rest k v

/-- What one call of fetch_page did: the returned value (none models the
definitive failure return), how many attempts were made, and the seconds
slept after each failed non-final attempt, in order. -/
structure FetchTrace where
  result : Option String
  attempts : Nat
  waits : List Nat
deriving DecidableEq

/-- The body of the retry loop of fetch_page, iterating over the remaining
attempt indices (the suffix of range(retries)). The oracle net gives each
attempt's outcome: some content on success, none when the attempt raised. -/
def fetchGo (net : Nat → Option String) (retries : Nat) : List Nat → FetchTrace
  | [] => ⟨none, 0, []⟩
  | attempt :: rest =>
    match net attempt with
    | some content => ⟨some content, 1, []⟩
    | none =>
      if attempt = retries - 1 then ⟨none, 1, []⟩
      else
        let t := fetchGo net retries rest
        ⟨t.result, t.attempts + 1, 2 ^ attempt :: t.waits⟩

/-- fetch_page: attempt the request once per index in range(retries);
on success return the content, on the last attempt's failure return none,
otherwise sleep 2 ^ attempt seconds and retry. -/
def fetch_page (net : Nat → Option String) (retries : Nat) : FetchTrace :=
  fetchGo net retries (List.range retries)

/-- One step of the attribute loop of scrape_elements: if attr is present
in element.attrs, element_data[attr] = element[attr], else skip. -/
def insertAttr (element : Element) (d : Record) (attr : String) : Record :=
  match List.lookup attr element.attrs with
  | some v => dictInsert d attr v
  | none => d

/-- The record built for one matched element: each requested attribute that
is present on the element, then element_data["text"] = the element's text. -/
def element_data (element : Element) (attributes : List String) : Record :=
  dictInsert (attributes.foldl (insertAttr element) []) "text" element.text

/-- The records of all elements of the given type, in document order
(soup.find_all followed by the attribute/text extraction). -/
def matchedRecords (soup : List Element) (element_type : String)
    (attributes : List String) : List Record :=
  (soup.filter (fun e => e.tag == element_type)).map
    (fun e => element_data e attributes)

/-- scrape_elements: results = {}; for each element type in the spec,
results[element_type] = the records of its matching elements. -/
def scrape_elements (soup : List Element) (elements : List (String × List String)) :
    PageResult :=
  elements.foldl
    (fun results p => dictInsert results p.1 (matchedRecords soup p.1 p.2)) []

/-- Content of a file written by save_results: either the JSON dump of the
results, or the list of CSV rows. -/
inductive FileContent where
  | jsonDump (results : PageResult)
  | csvRows (rows : List (List String))
deriving DecidableEq

/-- The CSV rows save_results writes: the fixed header, then one row per
(element type, attribute, value) triple of every record. -/
def csvRowsOf (results : PageResult) : List (List String) :=
  ["Element", "Attribute", "Value"] ::
    results.flatMap (fun p => p.2.flatMap (fun element =>
      element.map (fun av => [p.1, av.1, av.2])))

/-- Observable effect of one save_results call: the files written (name and
content) and whether the unsupported-format error was logged. The function
is total: it returns in every case, modelling that it never raises. -/
structure SaveOutcome where
  files : List (String × FileContent)
  errorLogged : Bool
deriving DecidableEq

/-- save_results: write filename.json for "json", filename.csv for "csv",
otherwise log an error and write nothing. -/
def save_results (results : PageResult) (output_format : String)
    (filename : String) : SaveOutcome :=
  if output_format = "json" then
    ⟨[(filename ++ ".json", FileContent.jsonDump results)], false⟩
  else if output_format = "csv" then
    ⟨[(filename ++ ".csv", FileContent.csvRows (csvRowsOf results))], false⟩
  else
    ⟨[], true⟩

/-- The test soup.find("a", text="Next") applies to each element. -/
def isNextButton (e : Element) : Bool :=
  e.tag == "a" && e.text == "Next"

/-- One step of the merge loop of scrape_next_button: for element type p.1,
if absent in all_results start from the empty list, then extend with the
page's records p.2. -/
def mergeStep (acc : PageResult) (p : String × List Record) : PageResult :=
  match List.lookup p.1 acc with
  | some existing => dictInsert acc p.1 (existing ++ p.2)
  | none => dictInsert acc p.1 p.2

/-- Merging one page's results into all_results, element type by element
type, in the order scrape_elements produced them. -/
def mergeResults (all_results : PageResult) (results : PageResult) : PageResult :=
  results.foldl mergeStep all_results

/-- The pagination loop of scrape_next_button, with the fuel being the
remaining iterations of range(max_pages). fetch abstracts what fetch_page
returns for each URL; parse abstracts BeautifulSoup. Returns the outcome
(Except.error models the KeyError raised by next_button["href"] when the
found Next button has no href) and the list of URLs fetched, in order. -/
def scrapeLoop (fetch : String → Option String) (parse : String → List Element)
    (elements : List (String × List String)) :
    Nat → String → PageResult → Except String PageResult × List String
  | 0, _, all_results => (Except.ok all_results, [])
  | n + 1, url, all_results =>
    match fetch url with
    | none => (Except.ok all_results, [url])
    | some html_content =>
      if html_content = "" then (Except.ok all_results, [url])
      else
        let soup := parse html_content
        let results := scrape_elements soup elements
        let merged := mergeResults all_results results
        match List.find? isNextButton soup with
        | none => (Except.ok merged, [url])
        | some next_button =>
          match List.lookup "href" next_button.attrs with
          | none => (Except.error "KeyError: href", [url])
          | some href =>
            let r := scrapeLoop fetch parse elements n href merged
            (r.1, url :: r.2)

/-- scrape_next_button: crawl from base_url for at most max_pages pages,
stopping on fetch failure or empty content, on a missing Next button, or
when the page budget is used up. -/
def scrape_next_button (fetch : String → Option String)
    (parse : String → List Element) (base_url : String)
    (elements : List (String × List String)) (max_pages : Nat) :
    Except String PageResult × List String :=
  scrapeLoop fetch parse elements max_pages base_url []

/-- A two-page demo site, first page: one h1 and a Next link to "u2". -/
def demoPage1 : List Element :=
  [⟨"h1", [("class", "a")], "Hi"⟩, ⟨"a", [("href", "u2")], "Next"⟩]

/-- A two-page demo site, second page: one h1 and no Next link. -/
def demoPage2 : List Element :=
  [⟨"h1", [], "Bye"⟩]

/-- Demo fetcher: "u1" and "u2" resolve, everything else fails. -/
def demoFetch : String → Option String := fun url =>
  if url = "u1" then some "c1" else if url = "u2" then some "c2" else none

/-- Demo parser matching demoFetch's documents. -/
def demoParse : String → List Element := fun html =>
  if html = "c1" then demoPage1 else if html = "c2" then demoPage2 else []

/-- Single demo page with two h1 elements, one with a class attribute. -/
def demoSoup : List Element :=
  [⟨"h1", [("class", "a")], "Hi"⟩, ⟨"h1", [], "Bye"⟩]

/-! ### Association-list (Python dict) lemmas -/

theorem lookup_eq_none_of_fresh {α : Type} {d : List (String × α)} {k : String}
    (h : ∀ p ∈ d, p.1 ≠ k) : List.lookup k d = none := by
  induction d with
  | nil => rfl
  | cons q rest ih =>
    obtain ⟨k₁, v₁⟩ := q
    have hk : (k == k₁) = false :=
      beq_eq_false_iff_ne.mpr (Ne.symm (h (k₁, v₁) (List.mem_cons_self _ _)))
    simp only [List.lookup, hk]
    exact ih (fun p hp => h p (List.mem_cons_of_mem _ hp))

theorem dictInsert_eq_append {α : Type} {d : List (String × α)} {k : String} {v : α}
    (h : ∀ p ∈ d, p.1 ≠ k) : dictInsert d k v = d ++ [(k, v)] := by
  induction d with
  | nil => rfl
  | cons q rest ih =>
    obtain ⟨k₁, v₁⟩ := q
    have hk : k₁ ≠ k := h (k₁, v₁) (List.mem_cons_self _ _)
    simp only [dictInsert, if_neg hk, List.cons_append, List.cons.injEq, true_and]
    exact ih (fun p hp => h p (List.mem_cons_of_mem _ hp))

theorem dictInsert_cons_ne {α : Type} {d : List (String × α)} {k₁ k : String}
    {v₁ v : α} (h : k₁ ≠ k) :
    dictInsert ((k₁, v₁) :: d) k v = (k₁, v₁) :: dictInsert d k v := by
  simp [dictInsert, h]

theorem dictInsert_cons_self {α : Type} (d : List (String × α)) (k : String)
    (v₁ v : α) : dictInsert ((k, v₁) :: d) k v = (k, v) :: d := by
  simp [dictInsert]

theorem foldl_insertAttr (element : Element) :
    ∀ (attributes : List String) (acc : Record),
      attributes.Nodup →
      (∀ a ∈ attributes, ∀ p ∈ acc, p.1 ≠ a) →
      attributes.foldl (insertAttr element) acc
        = acc ++ attributes.filterMap
            (fun attr => (List.lookup attr element.attrs).map (fun v => (attr, v))) := by
  intro attributes
  induction attributes with
  | nil => intro acc _ _; simp
  | cons a rest ih =>
    intro acc hnd hfresh
    have hnd₁ : rest.Nodup := (List.nodup_cons.mp hnd).2
    have ha : a ∉ rest := (List.nodup_cons.mp hnd).1
    cases hv : List.lookup a element.attrs with
    | none =>
      simp only [List.foldl_cons, insertAttr, hv, List.filterMap_cons,
        Option.map_none']
      exact ih acc hnd₁ (fun y hy p hp => hfresh y (List.mem_cons_of_mem _ hy) p hp)
    | some v =>
      simp only [List.foldl_cons, insertAttr, hv, List.filterMap_cons,
        Option.map_some']
      rw [dictInsert_eq_append (fun p hp => hfresh a (List.mem_cons_self _ _) p hp)]
      rw [ih (acc ++ [(a, v)]) hnd₁ ?_]
      · simp
      · intro y hy p hp
        rcases List.mem_append.mp hp with hp₁ | hp₂
        · exact hfresh y (List.mem_cons_of_mem _ hy) p hp₁
        · have : p = (a, v) := by simpa using hp₂
          subst this
          intro he
          apply ha
          have he' : a = y := he
          exact he' ▸ hy

theorem foldl_dictInsert {α β : Type} (key : β → String) (val : β → α) :
    ∀ (l : List β) (acc : List (String × α)),
      (l.map key).Nodup →
      (∀ x ∈ l, ∀ p ∈ acc, p.1 ≠ key x) →
      l.foldl (fun d x => dictInsert d (key x) (val x)) acc
        = acc ++ l.map (fun x => (key x, val x)) := by
  intro l
  induction l with
  | nil => intro acc _ _; simp
  | cons x rest ih =>
    intro acc hnd hfresh
    have hnd₁ : (rest.map key).Nodup := (List.nodup_cons.mp hnd).2
    have hx : key x ∉ rest.map key := (List.nodup_cons.mp hnd).1
    simp only [List.foldl_cons, List.map_cons]
    rw [dictInsert_eq_append (fun p hp => hfresh x (List.mem_cons_self _ _) p hp)]
    rw [ih (acc ++ [(key x, val x)]) hnd₁ ?_]
    · simp
    · intro y hy p hp
      rcases List.mem_append.mp hp with hp₁ | hp₂
      · exact hfresh y (List.mem_cons_of_mem _ hy) p hp₁
      · have : p = (key x, val x) := by simpa using hp₂
        subst this
        intro he
        apply hx
        have he' : key x = key y := he
        exact he' ▸ List.mem_map_of_mem key hy

/-! ### Extractor lemmas -/

theorem element_data_eq (element : Element) (attributes : List String)
    (hnd : attributes.Nodup) (htext : "text" ∉ attributes) :
    element_data element attributes =
      attributes.filterMap
        (fun attr => (List.lookup attr element.attrs).map (fun v => (attr, v)))
        ++ [("text", element.text)] := by
  unfold element_data
  rw [foldl_insertAttr element attributes [] hnd (by simp)]
  rw [dictInsert_eq_append]
  · simp
  · intro p hp
    simp only [List.nil_append, List.mem_filterMap, Option.map_eq_some'] at hp
    obtain ⟨attr, hattr, v, _, hpv⟩ := hp
    intro he
    apply htext
    have : p.1 = attr := by rw [← hpv]
    exact (this ▸ he) ▸ hattr

theorem scrape_elements_eq (soup : List Element)
    (elements : List (String × List String))
    (hnd : (elements.map Prod.fst).Nodup) :
    scrape_elements soup elements =
      elements.map (fun p => (p.1, matchedRecords soup p.1 p.2)) := by
  unfold scrape_elements
  rw [foldl_dictInsert Prod.fst (fun p => matchedRecords soup p.1 p.2) elements []
      hnd (by simp)]
  simp

/-! ### Merge lemmas -/

theorem mergeStep_fresh (acc : PageResult) (p : String × List Record)
    (h : ∀ q ∈ acc, q.1 ≠ p.1) : mergeStep acc p = acc ++ [p] := by
  obtain ⟨k, v⟩ := p
  simp only [mergeStep, lookup_eq_none_of_fresh h]
  exact dictInsert_eq_append h

theorem mergeStep_cons_ne (acc : PageResult) (p : String × List Record)
    (k : String) (v : List Record) (h : p.1 ≠ k) :
    mergeStep ((k, v) :: acc) p = (k, v) :: mergeStep acc p := by
  obtain ⟨k₁, v₁⟩ := p
  have hbeq : (k₁ == k) = false := beq_eq_false_iff_ne.mpr h
  simp only [mergeStep, List.lookup_cons, hbeq]
  cases hl : List.lookup k₁ acc with
  | none => simp only; exact dictInsert_cons_ne (Ne.symm h)
  | some existing => simp only; exact dictInsert_cons_ne (Ne.symm h)

theorem mergeResults_append_of_fresh :
    ∀ (results acc : PageResult),
      (results.map Prod.fst).Nodup →
      (∀ x ∈ results, ∀ p ∈ acc, p.1 ≠ x.1) →
      mergeResults acc results = acc ++ results := by
  intro results
  induction results with
  | nil => intro acc _ _; simp [mergeResults]
  | cons x rest ih =>
    intro acc hnd hfresh
    have hnd₁ : (rest.map Prod.fst).Nodup := (List.nodup_cons.mp hnd).2
    have hx : x.1 ∉ rest.map Prod.fst := (List.nodup_cons.mp hnd).1
    show List.foldl mergeStep (mergeStep acc x) rest = acc ++ x :: rest
    rw [mergeStep_fresh acc x (fun q hq => hfresh x (List.mem_cons_self _ _) q hq)]
    have := ih (acc ++ [x]) hnd₁ ?_
    · simpa [mergeResults] using this
    · intro y hy p hp
      rcases List.mem_append.mp hp with hp₁ | hp₂
      · exact hfresh y (List.mem_cons_of_mem _ hy) p hp₁
      · have hpv : p = x := by simpa using hp₂
        subst hpv
        intro he
        apply hx
        exact he ▸ List.mem_map_of_mem Prod.fst hy

theorem mergeResults_cons_fresh :
    ∀ (results : PageResult) (acc : PageResult) (k : String) (v : List Record),
      (∀ x ∈ results, x.1 ≠ k) →
      mergeResults ((k, v) :: acc) results = (k, v) :: mergeResults acc results := by
  intro results
  induction results with
  | nil => intro acc k v _; rfl
  | cons x rest ih =>
    intro acc k v hfresh
    have hk : x.1 ≠ k := hfresh x (List.mem_cons_self _ _)
    have hfresh₁ : ∀ y ∈ rest, y.1 ≠ k :=
      fun y hy => hfresh y (List.mem_cons_of_mem _ hy)
    show List.foldl mergeStep (mergeStep ((k, v) :: acc) x) rest
        = (k, v) :: List.foldl mergeStep (mergeStep acc x) rest
    rw [mergeStep_cons_ne acc x k v hk]
    exact ih (mergeStep acc x) k v hfresh₁

theorem mergeResults_map_map (spec : List (String × List String))
    (F G : String × List String → List Record)
    (hnd : (spec.map Prod.fst).Nodup) :
    mergeResults (spec.map (fun p => (p.1, F p))) (spec.map (fun p => (p.1, G p)))
      = spec.map (fun p => (p.1, F p ++ G p)) := by
  induction spec with
  | nil => rfl
  | cons q rest ih =>
    have hnd₁ : (rest.map Prod.fst).Nodup := (List.nodup_cons.mp hnd).2
    have hq : q.1 ∉ rest.map Prod.fst := (List.nodup_cons.mp hnd).1
    simp only [List.map_cons]
    show List.foldl mergeStep
        (mergeStep ((q.1, F q) :: rest.map (fun p => (p.1, F p))) (q.1, G q))
        (rest.map (fun p => (p.1, G p)))
      = (q.1, F q ++ G q) :: rest.map (fun p => (p.1, F p ++ G p))
    have hstep : mergeStep ((q.1, F q) :: rest.map (fun p => (p.1, F p))) (q.1, G q)
        = (q.1, F q ++ G q) :: rest.map (fun p => (p.1, F p)) := by
      simp only [mergeStep, List.lookup_cons, beq_self_eq_true]
      exact dictInsert_cons_self _ _ _ _
    rw [hstep]
    have hfresh : ∀ x ∈ rest.map (fun p => (p.1, G p)), x.1 ≠ q.1 := by
      intro x hx
      simp only [List.mem_map] at hx
      obtain ⟨p, hp, hxp⟩ := hx
      subst hxp
      intro he
      exact hq (he ▸ List.mem_map_of_mem Prod.fst hp)
    have hcons := mergeResults_cons_fresh (rest.map (fun p => (p.1, G p)))
      (rest.map (fun p => (p.1, F p))) q.1 (F q ++ G q) hfresh
    simp only [mergeResults] at hcons
    rw [hcons]
    have hrest : List.foldl mergeStep (rest.map (fun p => (p.1, F p)))
        (rest.map (fun p => (p.1, G p)))
        = rest.map (fun p => (p.1, F p ++ G p)) := ih hnd₁
    rw [hrest]

/-! ### Fetcher lemmas -/

theorem fetchGo_cons_succeed (net : Nat → Option String) (retries attempt : Nat)
    (rest : List Nat) (content : String) (h : net attempt = some content) :
    fetchGo net retries (attempt :: rest) = ⟨some content, 1, []⟩ := by
  simp [fetchGo, h]

theorem fetchGo_cons_last (net : Nat → Option String) (retries attempt : Nat)
    (rest : List Nat) (h : net attempt = none) (hl : attempt = retries - 1) :
    fetchGo net retries (attempt :: rest) = ⟨none, 1, []⟩ := by
  subst hl
  simp [fetchGo, h]

theorem fetchGo_cons_fail (net : Nat → Option String) (retries attempt : Nat)
    (rest : List Nat) (h : net attempt = none) (hl : ¬ attempt = retries - 1) :
    fetchGo net retries (attempt :: rest)
      = ⟨(fetchGo net retries rest).result,
          (fetchGo net retries rest).attempts + 1,
          2 ^ attempt :: (fetchGo net retries rest).waits⟩ := by
  simp [fetchGo, h, hl]

theorem fetchGo_allfail (net : Nat → Option String) (retries : Nat)
    (hnet : ∀ k, net k = none) :
    ∀ (n a : Nat), a + n = retries → 1 ≤ n →
      fetchGo net retries (List.range' a n)
        = ⟨none, n, (List.range' a (n - 1)).map (fun i => 2 ^ i)⟩ := by
  intro n
  induction n with
  | zero => intro a _ h; exact absurd h (by omega)
  | succ m ihm =>
    intro a ha _
    rw [List.range'_succ]
    cases m with
    | zero =>
      rw [fetchGo_cons_last net retries a _ (hnet a) (by omega)]
      simp
    | succ m₁ =>
      rw [fetchGo_cons_fail net retries a _ (hnet a) (by omega)]
      rw [ihm (a + 1) (by omega) (by omega)]
      simp [List.range'_succ]

theorem fetchGo_trace (net : Nat → Option String) (retries : Nat) :
    ∀ (n a : Nat), a + n = retries →
      (fetchGo net retries (List.range' a n)).waits
        = (List.range' a ((fetchGo net retries (List.range' a n)).attempts - 1)).map
            (fun i => 2 ^ i)
      ∧ (fetchGo net retries (List.range' a n)).attempts ≤ n
      ∧ (1 ≤ n → 1 ≤ (fetchGo net retries (List.range' a n)).attempts) := by
  intro n
  induction n with
  | zero =>
    intro a _
    refine ⟨by simp [fetchGo], by simp [fetchGo], ?_⟩
    intro h
    exact absurd h (by omega)
  | succ m ihm =>
    intro a ha
    rw [List.range'_succ]
    cases hna : net a with
    | some content =>
      rw [fetchGo_cons_succeed net retries a _ content hna]
      refine ⟨by simp, ?_, fun _ => by simp⟩
      show (1 : Nat) ≤ m + 1
      omega
    | none =>
      by_cases h1 : a = retries - 1
      · rw [fetchGo_cons_last net retries a _ hna h1]
        refine ⟨by simp, ?_, fun _ => by simp⟩
        show (1 : Nat) ≤ m + 1
        omega
      · rw [fetchGo_cons_fail net retries a _ hna h1]
        obtain ⟨hw, hat, hpos⟩ := ihm (a + 1) (by omega)
        have hm : 1 ≤ m := by omega
        have hat1 : 1 ≤ (fetchGo net retries (List.range' (a + 1) m)).attempts :=
          hpos hm
        refine ⟨?_, ?_, fun _ => by simp⟩
        · show 2 ^ a :: (fetchGo net retries (List.range' (a + 1) m)).waits
            = (List.range' a
                ((fetchGo net retries (List.range' (a + 1) m)).attempts + 1 - 1)).map
                (fun i => 2 ^ i)
          rw [Nat.add_sub_cancel]
          rw [show (fetchGo net retries (List.range' (a + 1) m)).attempts
                = ((fetchGo net retries (List.range' (a + 1) m)).attempts - 1) + 1
              from by omega]
          rw [List.range'_succ, List.map_cons]
          rw [← hw]
        · show (fetchGo net retries (List.range' (a + 1) m)).attempts + 1 ≤ m + 1
          omega

/-- All attempts of a permanently failing fetch fail: the call makes exactly
retries attempts, returns none, and sleeps 1, 2, 4, ... between them. -/
theorem fetch_page_allfail (net : Nat → Option String) (retries : Nat)
    (hnet : ∀ k, net k = none) (hr : 1 ≤ retries) :
    fetch_page net retries
      = ⟨none, retries, (List.range (retries - 1)).map (fun i => 2 ^ i)⟩ := by
  unfold fetch_page
  rw [List.range_eq_range', List.range_eq_range']
  exact fetchGo_allfail net retries hnet retries 0 (by omega) hr

/-- For any network behaviour, the waits recorded by fetch_page are exactly
2 ^ 0, 2 ^ 1, ... following each failed non-final attempt, and at most
retries attempts are made. -/
theorem fetch_page_trace (net : Nat → Option String) (retries : Nat) :
    (fetch_page net retries).waits
      = (List.range ((fetch_page net retries).attempts - 1)).map (fun i => 2 ^ i)
    ∧ (fetch_page net retries).attempts ≤ retries := by
  have h := fetchGo_trace net retries retries 0 (by omega)
  unfold fetch_page
  rw [List.range_eq_range', List.range_eq_range']
  exact ⟨h.1, h.2.1⟩

/-! ### Paginator loop lemmas -/

theorem scrapeLoop_fetched_le (fetch : String → Option String)
    (parse : String → List Element) (elements : List (String × List String)) :
    ∀ (n : Nat) (url : String) (all_results : PageResult),
      (scrapeLoop fetch parse elements n url all_results).2.length ≤ n := by
  intro n
  induction n with
  | zero => intro url all_results; simp [scrapeLoop]
  | succ m ihm =>
    intro url all_results
    cases hf : fetch url with
    | none => simp [scrapeLoop, hf]
    | some html_content =>
      by_cases hh : html_content = ""
      · simp [scrapeLoop, hf, hh]
      · cases hb : List.find? isNextButton (parse html_content) with
        | none => simp [scrapeLoop, hf, hh, hb]
        | some next_button =>
          cases hr : List.lookup "href" next_button.attrs with
          | none => simp [scrapeLoop, hf, hh, hb, hr]
          | some href =>
            simp only [scrapeLoop, hf, hh, if_neg hh, hb, hr, List.length_cons]
            exact Nat.succ_le_succ (ihm href _)

theorem scrapeLoop_ok_of_href (fetch : String → Option String)
    (parse : String → List Element) (elements : List (String × List String))
    (hbtn : ∀ html btn, List.find? isNextButton (parse html) = some btn →
      (List.lookup "href" btn.attrs).isSome) :
    ∀ (n : Nat) (url : String) (all_results : PageResult),
      ∃ A, (scrapeLoop fetch parse elements n url all_results).1 = Except.ok A := by
  intro n
  induction n with
  | zero => intro url all_results; exact ⟨all_results, rfl⟩
  | succ m ihm =>
    intro url all_results
    cases hf : fetch url with
    | none => exact ⟨all_results, by simp [scrapeLoop, hf]⟩
    | some html_content =>
      by_cases hh : html_content = ""
      · exact ⟨all_results, by simp [scrapeLoop, hf, hh]⟩
      · cases hb : List.find? isNextButton (parse html_content) with
        | none =>
          refine ⟨mergeResults all_results
            (scrape_elements (parse html_content) elements), ?_⟩
          simp [scrapeLoop, hf, hh, hb]
        | some next_button =>
          cases hr : List.lookup "href" next_button.attrs with
          | none =>
            have := hbtn html_content next_button hb
            rw [hr] at this
            exact absurd this (by simp)
          | some href =>
            obtain ⟨A, hA⟩ := ihm href
              (mergeResults all_results (scrape_elements (parse html_content) elements))
            refine ⟨A, ?_⟩
            simp only [scrapeLoop, hf, if_neg hh, hb, hr]
            exact hA

/-- Page b is reachable from page a: page a holds a Next button whose
href is page b's URL. -/
def chainLink (a b : String × List Element) : Prop :=
  ∃ btn, List.find? isNextButton a.2 = some btn
    ∧ List.lookup "href" btn.attrs = some b.1

/-- The fetcher delivers a non-empty document for this URL, and the parser
reads it as this page. -/
def pageFetches (fetch : String → Option String) (parse : String → List Element)
    (c : String × List Element) : Prop :=
  ∃ html, fetch c.1 = some html ∧ html ≠ "" ∧ parse html = c.2

theorem scrapeLoop_chain (fetch : String → Option String)
    (parse : String → List Element) (elements : List (String × List String))
    (hspec : (elements.map Prod.fst).Nodup) :
    ∀ (rest : List (String × List Element)) (url : String) (page : List Element)
      (n : Nat) (accF : String × List String → List Record),
      (∀ c ∈ (url, page) :: rest, pageFetches fetch parse c) →
      List.Chain' chainLink ((url, page) :: rest) →
      (∀ c, ((url, page) :: rest).getLast? = some c →
        List.find? isNextButton c.2 = none) →
      rest.length < n →
      scrapeLoop fetch parse elements n url (elements.map (fun p => (p.1, accF p)))
        = (Except.ok (elements.map (fun p =>
            (p.1, accF p ++ (((url, page) :: rest).map
              (fun c => matchedRecords c.2 p.1 p.2)).flatten))),
           ((url, page) :: rest).map Prod.fst) := by
  intro rest
  induction rest with
  | nil =>
    intro url page n accF hfetch _ hlast hlen
    cases n with
    | zero => exact absurd hlen (by omega)
    | succ m =>
      obtain ⟨html, hf, hne, hp⟩ := hfetch (url, page) (List.mem_cons_self _ _)
      have hlast₁ : List.find? isNextButton page = none :=
        hlast (url, page) (by simp)
      simp only [scrapeLoop, hf, if_neg hne, hp, hlast₁]
      rw [scrape_elements_eq page elements hspec]
      rw [mergeResults_map_map elements accF
        (fun p => matchedRecords page p.1 p.2) hspec]
      simp
  | cons c₁ rest₁ ih =>
    intro url page n accF hfetch hchain hlast hlen
    obtain ⟨u₁, p₁⟩ := c₁
    cases n with
    | zero => exact absurd hlen (by omega)
    | succ m =>
      obtain ⟨html, hf, hne, hp⟩ := hfetch (url, page) (List.mem_cons_self _ _)
      obtain ⟨hlink, hchain₁⟩ := List.chain'_cons.mp hchain
      obtain ⟨btn, hbtn, hhref⟩ := hlink
      simp only [scrapeLoop, hf, if_neg hne, hp, hbtn, hhref]
      rw [scrape_elements_eq page elements hspec]
      rw [mergeResults_map_map elements accF
        (fun p => matchedRecords page p.1 p.2) hspec]
      rw [ih u₁ p₁ m (fun p => accF p ++ matchedRecords page p.1 p.2)
        (fun c hc => hfetch c (List.mem_cons_of_mem _ hc)) hchain₁
        (fun c hc => hlast c (by rw [List.getLast?_cons_cons]; exact hc))
        (by simpa using hlen)]
      simp [List.append_assoc]

/-! ### Claim theorems -/

/-- Claim C1, counterexample: the source loop is for attempt in
range(retries), so a permanently failing URL with retries = 3 yields 3
attempts, not 3 + 1 as the claim states for maxRetries = 3. -/
theorem claim_C1_counterexample :
    ¬ ((fetch_page (fun _ => none) 3).attempts = 3 + 1) := by decide

/-- Claim C1, amended: for retries = r ≥ 1, a permanently failing URL
yields exactly r fetch attempts before fetch_page reports definitive
failure (returns none); the claimed count r + 1 overcounts by one. -/
theorem claim_C1 (net : Nat → Option String) (retries : Nat)
    (hnet : ∀ k, net k = none) (hr : 1 ≤ retries) :
    (fetch_page net retries).attempts = retries
    ∧ (fetch_page net retries).result = none := by
  rw [fetch_page_allfail net retries hnet hr]
  exact ⟨rfl, rfl⟩

/-- Claim C1, witness: the amended claim at retries = 3 with an
always-failing network. -/
theorem claim_C1_witness :
    (fetch_page (fun _ => none) 3).attempts = 3
    ∧ (fetch_page (fun _ => none) 3).result = none :=
  claim_C1 (fun _ => none) 3 (fun _ => rfl) (by decide)

/-- Claim C2, code behaviour at the failing input: on a page whose Next
anchor lacks an href, scrape_next_button raises a KeyError at
next_button["href"] (modelled as Except.error) instead of stopping and
returning the aggregate accumulated so far, as the spec requires. -/
theorem claim_C2_behavior :
    scrape_next_button (fun _ => some "page") (fun _ => [⟨"a", [], "Next"⟩])
      "u" [] 1
      = (Except.error "KeyError: href", ["u"]) := rfl

/-- Claim C3, counterexample: called with max_pages = 0 (a value below the
claimed contract minimum of 1), the paginator neither raises nor returns an
error value — it silently returns the empty aggregate successfully. -/
theorem claim_C3_counterexample :
    scrape_next_button (fun _ => none) (fun _ => []) "u" [] 0
      = (Except.ok [], []) := rfl

/-- Claim C3, amended: the paginator never raises for normal
end-of-pagination — whenever every found Next button carries an href, the
outcome is Except.ok — and for max_pages below 1 it performs no fetches and
returns the empty aggregate successfully rather than raising or returning
an error value. -/
theorem claim_C3 (fetch : String → Option String) (parse : String → List Element)
    (elements : List (String × List String)) (base_url : String) (max_pages : Nat)
    (hbtn : ∀ html btn, List.find? isNextButton (parse html) = some btn →
      (List.lookup "href" btn.attrs).isSome) :
    (∃ A, (scrape_next_button fetch parse base_url elements max_pages).1
      = Except.ok A)
    ∧ scrape_next_button fetch parse base_url elements 0 = (Except.ok [], []) :=
  ⟨scrapeLoop_ok_of_href fetch parse elements hbtn max_pages base_url [], rfl⟩

/-- Claim C3, witness: the amended claim for a site whose pages are all
empty (so no Next button is ever found). -/
theorem claim_C3_witness :
    (∃ A, (scrape_next_button (fun _ => none) (fun _ => ([] : List Element))
      "u" [] 5).1 = Except.ok A)
    ∧ scrape_next_button (fun _ => none) (fun _ => ([] : List Element)) "u" [] 0
      = (Except.ok [], []) :=
  claim_C3 (fun _ => none) (fun _ => []) [] "u" 5
    (fun html btn hfind => absurd hfind (by simp))

/-- Claim C4: for every network behaviour and retry budget, the waits
recorded by fetch_page are exactly 2 ^ attempt_index seconds after the
failed non-final attempt with that index (so 1s, 2s, 4s, ...), and the
sequence of waits is strictly increasing. -/
theorem claim_C4 (net : Nat → Option String) (retries : Nat) :
    (fetch_page net retries).waits
      = (List.range ((fetch_page net retries).attempts - 1)).map (fun i => 2 ^ i)
    ∧ List.Pairwise (· < ·) (fetch_page net retries).waits := by
  obtain ⟨hw, _⟩ := fetch_page_trace net retries
  refine ⟨hw, ?_⟩
  rw [hw]
  exact (List.pairwise_lt_range _).map _
    (fun a b hab => Nat.pow_lt_pow_right (by omega) hab)

/-- Claim C5: the paginator performs at most max_pages fetch calls for any
input, and an exhausted page budget terminates the crawl, returning the
accumulated aggregate. -/
theorem claim_C5 (fetch : String → Option String) (parse : String → List Element)
    (base_url : String) (elements : List (String × List String)) (max_pages : Nat) :
    (scrape_next_button fetch parse base_url elements max_pages).2.length
      ≤ max_pages
    ∧ ∀ (url : String) (all_results : PageResult),
        scrapeLoop fetch parse elements 0 url all_results
          = (Except.ok all_results, []) :=
  ⟨scrapeLoop_fetched_le fetch parse elements max_pages base_url [],
   fun _ _ => rfl⟩

/-- Claim C6: when the fetched pages are chained by Next links and the last
chained page lacks a Next link, the crawl fetches exactly those pages in
chain order and the aggregate maps each spec selector to the concatenation,
page by page in crawl order, of that page's matched records in document
order. -/
theorem claim_C6 (fetch : String → Option String) (parse : String → List Element)
    (elements : List (String × List String)) (base_url : String)
    (page : List Element) (rest : List (String × List Element)) (max_pages : Nat)
    (hspec : (elements.map Prod.fst).Nodup)
    (hfetch : ∀ c ∈ (base_url, page) :: rest, pageFetches fetch parse c)
    (hchain : List.Chain' chainLink ((base_url, page) :: rest))
    (hlast : ∀ c, ((base_url, page) :: rest).getLast? = some c →
      List.find? isNextButton c.2 = none)
    (hlen : rest.length < max_pages) :
    scrape_next_button fetch parse base_url elements max_pages
      = (Except.ok (elements.map (fun p =>
          (p.1, (((base_url, page) :: rest).map
            (fun c => matchedRecords c.2 p.1 p.2)).flatten))),
         ((base_url, page) :: rest).map Prod.fst) := by
  cases max_pages with
  | zero => exact absurd hlen (by omega)
  | succ m =>
    obtain ⟨html, hf, hne, hp⟩ := hfetch (base_url, page) (List.mem_cons_self _ _)
    have hres : scrape_elements page elements
        = elements.map (fun p => (p.1, matchedRecords page p.1 p.2)) :=
      scrape_elements_eq page elements hspec
    have hkeys : (((elements.map
        (fun p => (p.1, matchedRecords page p.1 p.2))).map Prod.fst)).Nodup := by
      simpa [List.map_map, Function.comp] using hspec
    have hmerge : mergeResults []
        (elements.map (fun p => (p.1, matchedRecords page p.1 p.2)))
        = elements.map (fun p => (p.1, matchedRecords page p.1 p.2)) := by
      rw [mergeResults_append_of_fresh _ [] hkeys (by simp)]
      simp
    cases rest with
    | nil =>
      have hlast₁ : List.find? isNextButton page = none :=
        hlast (base_url, page) (by simp)
      simp only [scrape_next_button, scrapeLoop, hf, if_neg hne, hp, hlast₁,
        hres, hmerge]
      simp
    | cons c₁ rest₁ =>
      obtain ⟨u₁, p₁⟩ := c₁
      obtain ⟨hlink, hchain₁⟩ := List.chain'_cons.mp hchain
      obtain ⟨btn, hbtn, hhref⟩ := hlink
      simp only [scrape_next_button, scrapeLoop, hf, if_neg hne, hp, hbtn,
        hhref, hres, hmerge]
      rw [scrapeLoop_chain fetch parse elements hspec rest₁ u₁ p₁ m
        (fun p => matchedRecords page p.1 p.2)
        (fun c hc => hfetch c (List.mem_cons_of_mem _ hc)) hchain₁
        (fun c hc => hlast c (by rw [List.getLast?_cons_cons]; exact hc))
        (by simpa using hlen)]
      simp [List.append_assoc]

/-- Claim C6, witness: the two-page demo site chained by a Next link, crawl
budget 5: both pages' h1 records appear in order and the crawl visits
exactly u1 then u2. -/
theorem claim_C6_witness :
    scrape_next_button demoFetch demoParse "u1" [("h1", ["class"])] 5
      = (Except.ok [("h1", [[("class", "a"), ("text", "Hi")],
          [("text", "Bye")]])],
         ["u1", "u2"]) := by
  have h := claim_C6 demoFetch demoParse [("h1", ["class"])] "u1" demoPage1
    [("u2", demoPage2)] 5 (by decide) ?hf ?hc ?hl (by decide)
  · rw [h]
    rfl
  case hf =>
    intro c hc
    rcases List.mem_cons.mp hc with h₁ | h₁
    · subst h₁
      exact ⟨"c1", rfl, by decide, rfl⟩
    · have h₂ : c = ("u2", demoPage2) := by simpa using h₁
      subst h₂
      exact ⟨"c2", rfl, by decide, rfl⟩
  case hc =>
    refine List.chain'_cons.mpr ⟨?_, List.chain'_singleton _⟩
    exact ⟨⟨"a", [("href", "u2")], "Next"⟩, rfl, rfl⟩
  case hl =>
    intro c hc
    have h₂ : ("u2", demoPage2) = c := by simpa using hc
    subst h₂
    rfl

/-- Claim C7: after all attempts of a permanently failing fetch are
exhausted, fetch_page returns the definitive failure value none (the model
is a total function: no exception escapes); and a paginator iteration whose
fetch returns none stops the crawl and returns the aggregate accumulated so
far rather than discarding it. -/
theorem claim_C7 :
    (∀ (net : Nat → Option String) (retries : Nat), (∀ k, net k = none) →
      (fetch_page net retries).result = none)
    ∧ (∀ (fetch : String → Option String) (parse : String → List Element)
        (elements : List (String × List String)) (n : Nat) (url : String)
        (all_results : PageResult),
        fetch url = none →
        scrapeLoop fetch parse elements (n + 1) url all_results
          = (Except.ok all_results, [url])) := by
  constructor
  · intro net retries hnet
    cases Nat.eq_zero_or_pos retries with
    | inl h0 => subst h0; rfl
    | inr hpos => rw [fetch_page_allfail net retries hnet hpos]
  · intro fetch parse elements n url all_results hf
    simp [scrapeLoop, hf]

/-- Claim C7, witness: a failing fetch at retries = 2 returns none, and a
paginator iteration with a failing fetch returns the aggregate built so
far. -/
theorem claim_C7_witness :
    (fetch_page (fun _ => none) 2).result = none
    ∧ scrapeLoop (fun _ => none) (fun _ => []) [] 1 "u"
        [("h1", [[("text", "old")]])]
      = (Except.ok [("h1", [[("text", "old")]])], ["u"]) :=
  ⟨claim_C7.1 (fun _ => none) 2 (fun _ => rfl),
   claim_C7.2 (fun _ => none) (fun _ => []) [] 0 "u"
     [("h1", [[("text", "old")]])] rfl⟩

/-- Claim C8: the record of one matched element holds exactly the listed
attributes actually present on it (absent ones omitted), in list order,
plus the "text" entry with the element's inner text; and scrape_elements
maps each spec selector to the records of its matching elements in
document order. -/
theorem claim_C8 :
    (∀ (element : Element) (attributes : List String),
      attributes.Nodup → "text" ∉ attributes →
      element_data element attributes
        = attributes.filterMap
            (fun attr => (List.lookup attr element.attrs).map (fun v => (attr, v)))
          ++ [("text", element.text)])
    ∧ (∀ (soup : List Element) (elements : List (String × List String)),
        (elements.map Prod.fst).Nodup →
        scrape_elements soup elements
          = elements.map (fun p => (p.1, matchedRecords soup p.1 p.2))) :=
  ⟨element_data_eq, scrape_elements_eq⟩

/-- Claim C8, witness: the spec scenario — spec h1 with attribute class on
a page with h1 class="a" "Hi" and h1 "Bye" gives exactly the claimed
aggregate. -/
theorem claim_C8_witness :
    scrape_elements demoSoup [("h1", ["class"])]
      = [("h1", [[("class", "a"), ("text", "Hi")], [("text", "Bye")]])] := by
  rw [claim_C8.2 demoSoup [("h1", ["class"])] (by decide)]
  rfl

/-- Claim C9: save_results with a format outside the supported set writes
no file, logs the unsupported-format error, and returns without raising
(the model is a total function). -/
theorem claim_C9 (results : PageResult) (output_format filename : String)
    (h₁ : output_format ≠ "json") (h₂ : output_format ≠ "csv") :
    save_results results output_format filename = ⟨[], true⟩ := by
  simp [save_results, h₁, h₂]

/-- Claim C9, witness: format "xml" writes nothing and logs the error. -/
theorem claim_C9_witness :
    save_results [] "xml" "output" = ⟨[], true⟩ :=
  claim_C9 [] "xml" "output" (by decide) (by decide)

/-- Claim C10: a fetch that succeeds with empty page content is treated
exactly like a definitive fetch failure — the crawl stops immediately,
returns the aggregate accumulated so far, and no extraction is performed
on that page. -/
theorem claim_C10 (fetch₁ fetch₂ : String → Option String)
    (parse : String → List Element) (elements : List (String × List String))
    (n : Nat) (url : String) (all_results : PageResult)
    (h₁ : fetch₁ url = some "") (h₂ : fetch₂ url = none) :
    scrapeLoop fetch₁ parse elements (n + 1) url all_results
      = (Except.ok all_results, [url])
    ∧ scrapeLoop fetch₁ parse elements (n + 1) url all_results
      = scrapeLoop fetch₂ parse elements (n + 1) url all_results := by
  have e₁ : scrapeLoop fetch₁ parse elements (n + 1) url all_results
      = (Except.ok all_results, [url]) := by
    simp [scrapeLoop, h₁]
  have e₂ : scrapeLoop fetch₂ parse elements (n + 1) url all_results
      = (Except.ok all_results, [url]) := by
    simp [scrapeLoop, h₂]
  exact ⟨e₁, e₁.trans e₂.symm⟩

/-- Claim C10, witness: an empty-content fetch on a one-page budget leaves
the prior aggregate untouched and matches the failing-fetch outcome. -/
theorem claim_C10_witness :
    scrapeLoop (fun _ => some "") (fun _ => [⟨"h1", [], "x"⟩]) [("h1", [])]
      1 "u" [("h1", [[("text", "old")]])]
      = (Except.ok [("h1", [[("text", "old")]])], ["u"]) :=
  (claim_C10 (fun _ => some "") (fun _ => none) (fun _ => [⟨"h1", [], "x"⟩])
    [("h1", [])] 0 "u" [("h1", [[("text", "old")]])] rfl rfl).1

end WebScraper
